import Mathlib

/-!
# Coloquent `Model` layer: shallow embedding and verification

This file embeds the `Model` class of the Coloquent JSON:API client
(`src/Model.ts`) in Lean 4 and proves/refutes the specification's claims
about its write-serialization, save/create/delete/fresh operations, the
relation-path walker `getRelationsKeys`, and the date-attribute accessors.

Conventions:
* JavaScript's `string | undefined | null` identity is `JsId`.
* Attribute values are the closed type `AttrVal` (strings, numbers,
  booleans, `null`, `undefined`, and `Date` objects carrying their epoch
  milliseconds).
* The insertion-ordered key-value container `Map` (`src/util/Map.ts`, not
  among the provided sources; its contract is in the spec, section 4.5:
  an insertion-order-preserving associative store with get/set/export) is
  modelled as an association list with unique keys: `mapSet` overwrites
  in place or appends, `mapGet` returns the stored value or `undefined`.
* External collaborators (the HTTP transport, JavaScript's `Date.parse`,
  and the `php-date-formatter` library) are modelled abstractly: HTTP
  operations are reified as request descriptors plus explicit
  continuation state, and the date functions enter as parameters
  (`DateParse`, `DateFmt`), with `Date.parse` returning `none` for NaN.
-/

/-- JavaScript value of the private field `Model.id : string | undefined`
(`null` can also arrive through `setApiId`, and `hasId` checks for it). -/
inductive JsId where
  | undef : JsId
  | null : JsId
  | str : String → JsId
deriving DecidableEq, Repr

/-- JavaScript-style string coercion of an id, as used by the `+`
concatenation in `save()` and `delete()` URL construction. -/
def JsId.asString : JsId → String
  | .undef => "undefined"
  | .null => "null"
  | .str s => s

/-- JavaScript truthiness of an id value: a string is truthy iff
non-empty; `undefined` and `null` are falsy.  Used by
`if (this.getApiId())` in `fresh()`. -/
def JsId.truthy : JsId → Bool
  | .str s => s ≠ ""
  | _ => false

/-- Attribute (and generic relation) values.  `date t` is a JavaScript
`Date` object holding epoch-milliseconds `t`. -/
inductive AttrVal where
  | str : String → AttrVal
  | num : Int → AttrVal
  | boolean : Bool → AttrVal
  | null : AttrVal
  | undef : AttrVal
  | date : Int → AttrVal
deriving DecidableEq, Repr

/-- JavaScript truthiness of an `AttrVal` (`""`, `0`, `false`, `null`,
`undefined` are falsy; a `Date` object is always truthy). -/
def AttrVal.truthy : AttrVal → Bool
  | .str s => s ≠ ""
  | .num n => n ≠ 0
  | .boolean b => b
  | .null => false
  | .undef => false
  | .date _ => true

/-- The static per-type configuration of a concrete `Model` subclass.
`jsonApiType` and `jsonApiBaseUrl` are the *effective* (resolved) values:
the source's `effectiveJsonApiType` / `effectiveJsonApiBaseUrl` getters
memoize the static property and throw when it is left undefined; the
embedding covers configured types, for which the getters return the
property itself (the base one with trailing slashes stripped — see
`ModelClass.effectiveJsonApiBaseUrl`). -/
structure ModelClass where
  jsonApiType : String
  jsonApiBaseUrl : String
  endpoint : Option String
  readOnlyAttributes : List String
  dates : List (String × String)
deriving DecidableEq, Repr

mutual
/-- An instance of a `Model` subclass: its class configuration, the
private field `id`, and the two insertion-ordered maps `attributes` and
`relations` (`Map<any>` in the source, modelled as association lists). -/
inductive ModelInst where
  | mk : ModelClass → JsId → List (String × AttrVal) →
      List (String × RelEntry) → ModelInst

/-- A value stored in the `relations` map.  The source stores `any`:
`serialize()` and `getRelationsKeys()` dispatch on whether it is a
`Model` instance, an `Array` (of models), or anything else. -/
inductive RelEntry where
  | model : ModelInst → RelEntry
  | array : List ModelInst → RelEntry
  | other : AttrVal → RelEntry
end

def ModelInst.cls : ModelInst → ModelClass
  | .mk c _ _ _ => c

def ModelInst.id : ModelInst → JsId
  | .mk _ i _ _ => i

def ModelInst.attrs : ModelInst → List (String × AttrVal)
  | .mk _ _ a _ => a

def ModelInst.rels : ModelInst → List (String × RelEntry)
  | .mk _ _ _ r => r

/-- Source `Model.hasId` (source lines 531-536): the id is defined, non-null
and not the empty string.  The spec calls such an instance "persisted". -/
def ModelInst.hasId (m : ModelInst) : Bool :=
  match m.id with
  | .undef => false
  | .null => false
  | .str s => s ≠ ""

/-- Source `Model.getApiId` (source lines 501-504): returns the private `id`. -/
def ModelInst.getApiId (m : ModelInst) : JsId :=
  m.id

/-- Source `Model.setApiId` (source lines 506-509): overwrites the private `id`. -/
def ModelInst.setApiId : ModelInst → JsId → ModelInst
  | .mk c _ a r, i => .mk c i a r

/-! ## The ordered key-value container (`src/util/Map.ts`)

Modelled from the spec, section 4.5: a minimal associative container
preserving insertion order, supporting get/set/export-to-plain-mapping;
used for `attributes` and `relations` so that serialization order is
deterministic. -/

/-- Source `Map.set`: overwrite the first entry with the given key in place,
or append a fresh entry, preserving insertion order. -/
def mapSet {α : Type} : List (String × α) → String → α → List (String × α)
  | [], k, v => [(k, v)]
  | kv :: rest, k, v =>
      if kv.1 = k then (k, v) :: rest else kv :: mapSet rest k v

/-- Source `Map.get`: the stored value, or JavaScript `undefined` (represented
by the supplied default) when the key is absent. -/
def mapGetD {α : Type} (dflt : α) : List (String × α) → String → α
  | [], _ => dflt
  | kv :: rest, k => if kv.1 = k then kv.2 else mapGetD dflt rest k

/-- Source `Map.get` on the `attributes` map: absent keys read as `undefined`. -/
def mapGet (l : List (String × AttrVal)) (k : String) : AttrVal :=
  mapGetD AttrVal.undef l k

/-- The keys of an association list are pairwise distinct — the invariant
every map built through `mapSet` satisfies. -/
def keysNodup {α : Type} : List (String × α) → Bool
  | [] => true
  | (k, _) :: rest => !(rest.any (fun kv => kv.1 = k)) && keysNodup rest

/-! ## URL construction (source lines 326-357) -/

/-- Source `.replace(/\/+$/, '')`: strip every trailing slash. -/
def stripTrailingSlashes (s : String) : String :=
  ⟨(s.data.reverse.dropWhile (· = '/')).reverse⟩

/-- Source `.replace(/^\/+/, '')`: strip every leading slash. -/
def stripLeadingSlashes (s : String) : String :=
  ⟨s.data.dropWhile (· = '/')⟩

/-- Source `Model.effectiveJsonApiBaseUrl` (source lines 329-337) for a
configured class: the static `jsonApiBaseUrl` with trailing slashes
stripped (memoization elided — the getter is pure after the first call). -/
def ModelClass.effectiveJsonApiBaseUrl (c : ModelClass) : String :=
  stripTrailingSlashes c.jsonApiBaseUrl

/-- Source `Model.effectiveEndpoint` (source lines 351-353):
`(this.endpoint ?? this.effectiveJsonApiType)` with leading and trailing
slashes stripped. -/
def ModelClass.effectiveEndpoint (c : ModelClass) : String :=
  stripTrailingSlashes (stripLeadingSlashes (c.endpoint.getD c.jsonApiType))

/-- Source `Model.getJsonApiUrl` (source lines 355-357). -/
def ModelClass.getJsonApiUrl (c : ModelClass) : String :=
  c.effectiveJsonApiBaseUrl ++ "/" ++ c.effectiveEndpoint

/-! ## Write serialization (source lines 160-208) -/

/-- The `{type, id}` resource-identifier object produced by
`Model.serializeRelatedModel` (source lines 191-196). -/
structure ResourceIdentifier where
  type : String
  id : JsId
deriving DecidableEq, Repr

/-- A value of the `relationships` object: a to-one relationship
`{data: {type, id}}` or a to-many relationship `{data: [{type, id}, ...]}`. -/
inductive RelationshipValue where
  | toOne : ResourceIdentifier → RelationshipValue
  | toMany : List ResourceIdentifier → RelationshipValue
deriving DecidableEq, Repr

/-- The write payload `{data: {type, attributes, relationships, id?}}`
built by `Model.serialize` (source lines 160-189); `id = none` encodes
the absence of the `id` key. -/
structure Payload where
  type : String
  attributes : List (String × AttrVal)
  relationships : List (String × RelationshipValue)
  id : Option String
deriving DecidableEq, Repr

/-- Source `Model.serializeRelatedModel` (source lines 191-196). -/
def serializeRelatedModel (m : ModelInst) : ResourceIdentifier :=
  { type := m.cls.jsonApiType, id := m.id }

/-- The relationship dispatch inside `Model.serialize` (source lines
169-176): a `Model` value becomes a to-one relationship object, a
non-empty `Array` becomes a to-many relationship object (via
`serializeToManyRelation`, source lines 204-208, which maps
`serializeRelatedModel` over the array), and everything else — an empty
array included — contributes nothing. -/
def serializeRelEntry : RelEntry → Option RelationshipValue
  | .model r => some (.toOne (serializeRelatedModel r))
  | .array rs =>
      if rs.length > 0 then some (.toMany (rs.map serializeRelatedModel))
      else none
  | .other _ => none

/-- Source `Model.serialize` (source lines 160-189): attributes are copied
except those in the class's `readOnlyAttributes`; relationships are the
populated relations; the `id` key is added exactly when `hasId`. -/
def ModelInst.serialize (m : ModelInst) : Payload :=
  { type := m.cls.jsonApiType
    attributes := m.attrs.filter (fun kv => !m.cls.readOnlyAttributes.contains kv.1)
    relationships :=
      m.rels.filterMap (fun kv => (serializeRelEntry kv.2).map ((kv.1, ·)))
    id :=
      if m.hasId then
        match m.id with
        | .str s => some s
        | _ => none
      else none }

/-! ## HTTP operations (source lines 210-294)

The transport is an external collaborator; each operation is reified as
the request descriptor it hands to the `effectiveHttpClient`, and the
promise fulfillment handlers are embedded as explicit state
transformers on the instance. -/

inductive HttpMethod where
  | post : HttpMethod
  | patch : HttpMethod
  | del : HttpMethod
deriving DecidableEq, Repr

/-- A request issued through the `HttpClient` collaborator. -/
structure HttpRequest where
  method : HttpMethod
  url : String
  payload : Option Payload
deriving DecidableEq, Repr

/-- Source `Model.create` (source lines 234-252), up to the transport call: a
POST of `this.serialize()` to `getJsonApiUrl()`. -/
def ModelInst.createRequest (m : ModelInst) : HttpRequest :=
  { method := .post, url := m.cls.getJsonApiUrl, payload := some m.serialize }

/-- Source `Model.save` (source lines 210-232), up to the transport call:
`if (!this.hasId) return this.create();`, otherwise a PATCH of
`this.serialize()` to `getJsonApiUrl() + '/' + this.id`. -/
def ModelInst.saveRequest (m : ModelInst) : HttpRequest :=
  if !m.hasId then m.createRequest
  else
    { method := .patch
      url := m.cls.getJsonApiUrl ++ "/" ++ m.id.asString
      payload := some m.serialize }

/-- The slice of a response document the save/create fulfillment
handlers read: `response.getData().data.id`, a `string | undefined`
(`JsId.undef` when the document carries no `data.id`). -/
structure ResponseDoc where
  dataId : JsId
deriving DecidableEq, Repr

/-- The fulfillment handler shared by `save()` and `create()` (source
lines 222-227 and 242-247): read `response.getData().data.id` into
`idFromJson` and call `this.setApiId(idFromJson)` — unconditionally. -/
def ModelInst.saveFulfill (m : ModelInst) (doc : ResponseDoc) : ModelInst :=
  m.setApiId doc.dataId

/-- Source `Model.delete` (source lines 254-262): throw
`'Cannot delete a model with no ID.'` when `!this.hasId`; otherwise
issue one DELETE to `getJsonApiUrl() + '/' + this.id`, whose fulfillment
handler `function () {}` leaves the instance untouched and resolves to
no value.  The `ok` case carries the single request issued and the
instance state after fulfillment. -/
def ModelInst.deleteOp (m : ModelInst) : Except String (HttpRequest × ModelInst) :=
  if !m.hasId then .error "Cannot delete a model with no ID."
  else .ok ({ method := .del
              url := m.cls.getJsonApiUrl ++ "/" ++ m.id.asString
              payload := none }, m)

/-! ## `getRelationsKeys` (source lines 301-324)

The walker pushes each relation key (prefixed with
`parentRelationName + '.'` when a parent name was passed), then recurses
into the relation value with *that relation's key* — not the dotted
path — as the new parent name.  A truthy relation value that is neither
a `Model` nor an `Array` would make the source throw a `TypeError`
(`relation.getRelationsKeys is not a function`); the embedding returns
`[]` there and the theorems restrict to graphs whose non-model relation
values are falsy (`ModelInst.wf`), where the source skips them. -/

mutual
def ModelInst.getRelationsKeys : ModelInst → Option String → List String
  | .mk _ _ _ rels, parent => relsKeys rels parent

def relsKeys : List (String × RelEntry) → Option String → List String
  | [], _ => []
  | (key, r) :: rest, parent =>
      (match parent with
       | some p => [p ++ "." ++ key]
       | none => [key])
      ++ relEntryKeys r key ++ relsKeys rest parent

def relEntryKeys : RelEntry → String → List String
  | .model m, key => m.getRelationsKeys (some key)
  | .array ms, key => arrKeys ms key
  | .other _, _ => []

def arrKeys : List ModelInst → String → List String
  | [], _ => []
  | m :: rest, key => m.getRelationsKeys (some key) ++ arrKeys rest key
end

/-! ## Well-formedness of a relation graph

`wf` packages the invariants under which the embedding is exact:
map keys are pairwise distinct (guaranteed by `Map`), and every
relation value that is neither a `Model` nor an `Array` is falsy
(a truthy one would crash `getRelationsKeys` in the source). -/

mutual
def ModelInst.wf : ModelInst → Bool
  | .mk _ _ attrs rels =>
      keysNodup attrs && keysNodup rels && relsWf rels

def relsWf : List (String × RelEntry) → Bool
  | [] => true
  | (_, r) :: rest => relEntryWf r && relsWf rest

def relEntryWf : RelEntry → Bool
  | .model m => m.wf
  | .array ms => arrWf ms
  | .other v => !v.truthy

def arrWf : List ModelInst → Bool
  | [] => true
  | m :: rest => m.wf && arrWf rest
end

/-- Source `Model.fresh` (source lines 272-294), up to the transport call: a
fresh builder is given `with(this.getRelationsKeys())`; then
`if (this.getApiId())` — string truthiness — decides between
`builder.find(this.getApiId())` and resolving `undefined` with no
request issued. -/
inductive FreshOutcome where
  | resolveUndefined : FreshOutcome
  | find : String → List String → FreshOutcome
deriving DecidableEq, Repr

def ModelInst.fresh (m : ModelInst) : FreshOutcome :=
  if m.getApiId.truthy then
    .find m.getApiId.asString (m.getRelationsKeys none)
  else .resolveUndefined

/-! ## Date attributes (source lines 451-499)

JavaScript's `Date.parse` and the external `php-date-formatter`
library's `parseDate` are collaborators outside the core (spec,
section 1); they enter as parameters.  `Date.parse` yields
epoch-milliseconds or NaN (`none`); `new Date(x)` constructs the `Date`
for the same instant `Date.parse(x)` denotes. -/

/-- Abstract `Date.parse`: `some t` is the parsed epoch-millisecond
instant, `none` is NaN. -/
def DateParse : Type := AttrVal → Option Int

/-- Abstract `DateFormatter.parseDate(value, format)` of the external
`php-date-formatter` collaborator, applied by `setAttribute` before
storage (per the spec: the value reformatted to the configured
pattern). -/
def DateFmt : Type := AttrVal → String → AttrVal

/-- The test `!Date.parse(value)` (source lines 462 and 477):
JavaScript truthiness makes it succeed both on NaN (unparseable) and on
the number `0` (the epoch instant). -/
def parseFalsy (dp : DateParse) (v : AttrVal) : Bool :=
  match dp v with
  | none => true
  | some t => t = 0

/-- Source `Model.isDateAttribute` (source lines 469-472):
`this.constructor.dates.hasOwnProperty(attributeName)`. -/
def ModelClass.isDateAttribute (c : ModelClass) (name : String) : Bool :=
  c.dates.any (fun kv => kv.1 = name)

/-- Source `this.constructor.dates[attributeName]`: the configured format. -/
def ModelClass.dateFormatOf (c : ModelClass) (name : String) : String :=
  mapGetD "" c.dates name

def exceptIsOk {ε α : Type} : Except ε α → Bool
  | .ok _ => true
  | .error _ => false

/-- Source `Model.setAttribute` (source lines 474-484): for a date-registered
attribute, throw when `!Date.parse(value)`, else store
`getDateFormatter().parseDate(value, dates[attributeName])`; for any
other attribute store the value unchanged.  Storage goes through
`Map.set`. -/
def ModelInst.setAttribute (dp : DateParse) (fmt : DateFmt) :
    ModelInst → String → AttrVal → Except String ModelInst
  | .mk c i attrs rels, name, v =>
      if c.isDateAttribute name then
        if parseFalsy dp v then
          .error "cannot be cast to type Date"
        else
          .ok (.mk c i (mapSet attrs name (fmt v (c.dateFormatOf name))) rels)
      else .ok (.mk c i (mapSet attrs name v) rels)

/-- Source `Model.getAttributeAsDate` (source lines 460-467): throw when
`!Date.parse(stored)`, else return `new Date(stored)` — the `Date`
carrying the instant `Date.parse(stored)` denotes. -/
def ModelInst.getAttributeAsDate (dp : DateParse) (m : ModelInst)
    (name : String) : Except String AttrVal :=
  match dp (mapGet m.attrs name) with
  | none => .error ("Attribute " ++ name ++ " cannot be cast to type Date")
  | some t =>
      if t = 0 then .error ("Attribute " ++ name ++ " cannot be cast to type Date")
      else .ok (.date t)

/-- Source `Model.getAttribute` (source lines 451-458). -/
def ModelInst.getAttribute (dp : DateParse) (m : ModelInst)
    (name : String) : Except String AttrVal :=
  if m.cls.isDateAttribute name then m.getAttributeAsDate dp name
  else .ok (mapGet m.attrs name)

/-! ## Dot-free relation names

`dotCount` counts the `.` separators of a path; a relation graph is
`dotFreeKeys` when no relation name itself contains a dot, so a dotted
path's segment count reflects the nesting the walker actually
recorded. -/

def dotCount (s : String) : Nat :=
  s.data.count '.'

mutual
def ModelInst.dotFreeKeys : ModelInst → Bool
  | .mk _ _ _ rels => relsDotFree rels

def relsDotFree : List (String × RelEntry) → Bool
  | [] => true
  | (k, r) :: rest => dotCount k = 0 && relEntryDotFree r && relsDotFree rest

def relEntryDotFree : RelEntry → Bool
  | .model m => m.dotFreeKeys
  | .array ms => arrDotFree ms
  | .other _ => true

def arrDotFree : List ModelInst → Bool
  | [] => true
  | m :: rest => m.dotFreeKeys && arrDotFree rest
end

/-! ## Helper lemmas -/

theorem dotCount_append (a b : String) :
    dotCount (a ++ b) = dotCount a + dotCount b := by
  simp [dotCount, String.data_append, List.count_append]

theorem keysNodup_mem_unique {α : Type} {l : List (String × α)} {k : String}
    {a b : α} (h : keysNodup l = true) (ha : (k, a) ∈ l) (hb : (k, b) ∈ l) :
    a = b := by
  induction l with
  | nil => cases ha
  | cons kv rest ih =>
      rw [show kv = (kv.1, kv.2) from rfl, keysNodup] at h
      simp only [Bool.and_eq_true, Bool.not_eq_true'] at h
      obtain ⟨hnone, hrest⟩ := h
      rcases List.mem_cons.1 ha with ha1 | ha2 <;>
        rcases List.mem_cons.1 hb with hb1 | hb2
      · rw [← ha1] at hb1
        exact congrArg Prod.snd hb1.symm
      · exfalso
        have : rest.any (fun x => x.1 = kv.1) = true :=
          List.any_eq_true.2 ⟨(k, b), hb2, by simp [congrArg Prod.fst ha1.symm]⟩
        simp [this] at hnone
      · exfalso
        have : rest.any (fun x => x.1 = kv.1) = true :=
          List.any_eq_true.2 ⟨(k, a), ha2, by simp [congrArg Prod.fst hb1.symm]⟩
        simp [this] at hnone
      · exact ih hrest ha2 hb2

theorem mapGetD_mapSet {α : Type} (d : α) (l : List (String × α)) (k : String) (v : α) :
    mapGetD d (mapSet l k v) k = v := by
  induction l with
  | nil => simp [mapSet, mapGetD]
  | cons kv rest ih =>
      by_cases h : kv.1 = k
      · simp [mapSet, h, mapGetD]
      · simp [mapSet, h, mapGetD, ih]

mutual
theorem dotBound_model (m : ModelInst) (p : Option String)
    (hp : ∀ q, p = some q → dotCount q = 0) (hd : m.dotFreeKeys = true) :
    ∀ s ∈ m.getRelationsKeys p, dotCount s ≤ 1 :=
  match m with
  | .mk c i attrs rels => by
      rw [ModelInst.getRelationsKeys.eq_def]
      exact dotBound_rels rels p hp (by
        rw [ModelInst.dotFreeKeys.eq_def] at hd; exact hd)

theorem dotBound_rels (l : List (String × RelEntry)) (p : Option String)
    (hp : ∀ q, p = some q → dotCount q = 0) (hd : relsDotFree l = true) :
    ∀ s ∈ relsKeys l p, dotCount s ≤ 1 :=
  match l with
  | [] => by rw [relsKeys.eq_def]; intro s hs; cases hs
  | (key, r) :: rest => by
      rw [relsDotFree.eq_def] at hd
      simp only [Bool.and_eq_true, decide_eq_true_eq] at hd
      obtain ⟨⟨hkey, hentry⟩, hrest⟩ := hd
      rw [relsKeys.eq_def]
      intro s hs
      rcases List.mem_append.1 hs with hs1 | hs2
      · rcases List.mem_append.1 hs1 with hs3 | hs4
        · cases p with
          | none =>
              simp only [List.mem_singleton] at hs3
              subst hs3; omega
          | some q =>
              simp only [List.mem_singleton] at hs3
              subst hs3
              have hq := hp q rfl
              simp only [dotCount_append, hq, hkey]
              decide
        · exact dotBound_entry r key hkey hentry s hs4
      · exact dotBound_rels rest p hp hrest s hs2

theorem dotBound_entry (r : RelEntry) (k : String)
    (hk : dotCount k = 0) (hd : relEntryDotFree r = true) :
    ∀ s ∈ relEntryKeys r k, dotCount s ≤ 1 :=
  match r with
  | .model m => by
      rw [relEntryKeys.eq_def]
      exact dotBound_model m (some k) (by intro q hq; cases hq; exact hk)
        (by rw [relEntryDotFree.eq_def] at hd; exact hd)
  | .array ms => by
      rw [relEntryKeys.eq_def]
      exact dotBound_arr ms k hk (by rw [relEntryDotFree.eq_def] at hd; exact hd)
  | .other v => by rw [relEntryKeys.eq_def]; intro s hs; cases hs

theorem dotBound_arr (ms : List ModelInst) (k : String)
    (hk : dotCount k = 0) (hd : arrDotFree ms = true) :
    ∀ s ∈ arrKeys ms k, dotCount s ≤ 1 :=
  match ms with
  | [] => by rw [arrKeys.eq_def]; intro s hs; cases hs
  | m :: rest => by
      rw [arrDotFree.eq_def] at hd
      simp only [Bool.and_eq_true] at hd
      rw [arrKeys.eq_def]
      intro s hs
      rcases List.mem_append.1 hs with hs1 | hs2
      · exact dotBound_model m (some k) (by intro q hq; cases hq; exact hk) hd.1 s hs1
      · exact dotBound_arr rest k hk hd.2 s hs2
end

/-- Source `hasId` is string truthiness of the id: both say "defined, non-null,
non-empty string". -/
theorem hasId_eq_truthy (m : ModelInst) : m.hasId = m.id.truthy := by
  cases h : m.id <;> simp [ModelInst.hasId, JsId.truthy, h]

/-! ## Concrete instances used by witnesses and counterexamples -/

/-- A configured entity class: type `articles`, two read-only
attributes, one date attribute. -/
def clsArticles : ModelClass :=
  { jsonApiType := "articles"
    jsonApiBaseUrl := "http://example.test/api/v1"
    endpoint := none
    readOnlyAttributes := ["views", "slug"]
    dates := [("createdAt", "Y-m-d H:i")] }

def clsPeople : ModelClass :=
  { jsonApiType := "people"
    jsonApiBaseUrl := "http://example.test/api/v1"
    endpoint := none
    readOnlyAttributes := []
    dates := [] }

def clsBooks : ModelClass :=
  { jsonApiType := "books"
    jsonApiBaseUrl := "http://example.test/api/v1"
    endpoint := none
    readOnlyAttributes := []
    dates := [] }

/-- A persisted article with a read-only attribute, a to-one relation,
a to-many relation, an empty-array relation and a null relation. -/
def mArticle : ModelInst :=
  .mk clsArticles (.str "42")
    [("title", .str "On Serialization"), ("views", .num 977)]
    [("author", .model (.mk clsPeople (.str "7") [("name", .str "Ada")] [])),
     ("chapters", .array
        [.mk clsBooks (.str "c1") [] [], .mk clsBooks (.str "c2") [] []]),
     ("tags", .array []),
     ("reviewer", .other .null)]

/-- A non-persisted article (id `undefined`). -/
def mDraft : ModelInst :=
  .mk clsArticles .undef [("title", .str "Draft")] []

/-! ## The claims -/

/-- C1: for every entity instance, the write payload produced by
`serialize()` contains no attribute key listed in the entity type's
read-only attribute set, and contains every other stored attribute with
its stored value unchanged. -/
theorem c1_serialize_excludes_readonly (m : ModelInst) :
    (∀ kv ∈ (m.serialize).attributes,
        m.cls.readOnlyAttributes.contains kv.1 = false)
    ∧ (∀ kv ∈ m.attrs, m.cls.readOnlyAttributes.contains kv.1 = false →
        kv ∈ (m.serialize).attributes) := by
  constructor
  · intro kv hkv
    simp only [ModelInst.serialize, List.mem_filter, Bool.not_eq_true'] at hkv
    exact hkv.2
  · intro kv hkv hro
    simp only [ModelInst.serialize, List.mem_filter]
    exact ⟨hkv, by simpa using hro⟩

theorem c1_serialize_excludes_readonly_witness :
    ("title", AttrVal.str "On Serialization") ∈ (mArticle.serialize).attributes
    ∧ ("views", AttrVal.num 977) ∉ (mArticle.serialize).attributes :=
  ⟨(c1_serialize_excludes_readonly mArticle).2 _ (by decide) (by decide),
   fun h => by
     have := (c1_serialize_excludes_readonly mArticle).1 _ h
     simp [clsArticles, mArticle, ModelInst.cls] at this⟩

/-- C2: `serialize()` includes the identity field carrying the
instance's current identity exactly when the instance is persisted
(`hasId`: a defined, non-null, non-empty string); otherwise the field is
absent (`none`). -/
theorem c2_serialize_id_iff_persisted (m : ModelInst) :
    ((m.serialize).id = if m.hasId then some m.id.asString else none)
    ∧ (∀ s : String, (m.serialize).id = some s ↔ m.id = .str s ∧ s ≠ "") := by
  cases m with
  | mk c i attrs rels =>
      cases i with
      | undef => simp [ModelInst.serialize, ModelInst.hasId, ModelInst.id]
      | null => simp [ModelInst.serialize, ModelInst.hasId, ModelInst.id]
      | str s =>
          by_cases h : s = ""
          · simp [ModelInst.serialize, ModelInst.hasId, ModelInst.id,
              JsId.asString, h]
          · constructor
            · simp [ModelInst.serialize, ModelInst.hasId, ModelInst.id,
                JsId.asString, h]
            · intro t
              simp only [ModelInst.serialize, ModelInst.hasId, ModelInst.id,
                JsId.str.injEq, ne_eq, h, not_false_eq_true, if_true]
              constructor
              · intro ht
                have hst : s = t := Option.some.injEq s t ▸ ht
                exact ⟨hst, fun hc => h (hst.trans hc)⟩
              · intro ht
                exact congrArg some ht.1

theorem c2_serialize_id_iff_persisted_witness :
    (mArticle.serialize).id = some "42" ∧ (mDraft.serialize).id = none :=
  ⟨by rw [(c2_serialize_id_iff_persisted mArticle).1]; decide,
   by rw [(c2_serialize_id_iff_persisted mDraft).1]; decide⟩

/-- C3: in the serialized payload, a relation holding a single related
entity appears as a to-one relationship object `{data: {type, id}}`; a
relation holding a non-empty array appears as a to-many relationship
object `{data: [{type, id}, ...]}` in element order (the list is the
order-preserving map of `serializeRelatedModel`); a relation
holding an empty array or any other value contributes no relationship
key at all. -/
theorem c3_serialize_relations (m : ModelInst) (k : String) (e : RelEntry)
    (hmem : (k, e) ∈ m.rels) (hnodup : keysNodup m.rels = true) :
    (∀ r, e = .model r →
        (k, RelationshipValue.toOne (serializeRelatedModel r))
          ∈ (m.serialize).relationships)
    ∧ (∀ rs, e = .array rs → rs ≠ [] →
        (k, RelationshipValue.toMany (rs.map serializeRelatedModel))
          ∈ (m.serialize).relationships)
    ∧ ((e = .array [] ∨ ∃ v, e = .other v) →
        ∀ rv, (k, rv) ∉ (m.serialize).relationships) := by
  refine ⟨?_, ?_, ?_⟩
  · intro r he
    subst he
    simp only [ModelInst.serialize]
    exact List.mem_filterMap.2 ⟨(k, .model r), hmem, by
      simp [serializeRelEntry]⟩
  · intro rs he hne
    subst he
    simp only [ModelInst.serialize]
    exact List.mem_filterMap.2 ⟨(k, .array rs), hmem, by
      simp [serializeRelEntry, List.length_pos, hne]⟩
  · intro hother rv hcontra
    simp only [ModelInst.serialize] at hcontra
    obtain ⟨⟨k', e'⟩, hmem', heq⟩ := List.mem_filterMap.1 hcontra
    obtain ⟨w, hw, hpair⟩ := Option.map_eq_some'.1 heq
    have hk : k' = k := congrArg Prod.fst hpair
    subst hk
    have hee : e' = e := keysNodup_mem_unique hnodup hmem' hmem
    subst hee
    rcases hother with he | ⟨v, he⟩ <;> subst he <;>
      simp [serializeRelEntry] at hw

theorem c3_serialize_relations_witness :
    ("author", RelationshipValue.toOne ⟨"people", .str "7"⟩)
      ∈ (mArticle.serialize).relationships
    ∧ ("chapters", RelationshipValue.toMany
        [⟨"books", .str "c1"⟩, ⟨"books", .str "c2"⟩])
      ∈ (mArticle.serialize).relationships
    ∧ (∀ rv, ("tags", rv) ∉ (mArticle.serialize).relationships)
    ∧ (∀ rv, ("reviewer", rv) ∉ (mArticle.serialize).relationships) := by
  refine ⟨?_, ?_, ?_, ?_⟩
  · exact (c3_serialize_relations mArticle "author"
      (.model (.mk clsPeople (.str "7") [("name", .str "Ada")] []))
      (.head _) (by decide)).1 _ rfl
  · exact (c3_serialize_relations mArticle "chapters"
      (.array [.mk clsBooks (.str "c1") [] [], .mk clsBooks (.str "c2") [] []])
      (.tail _ (.head _)) (by decide)).2.1 _ rfl (List.cons_ne_nil _ _)
  · exact (c3_serialize_relations mArticle "tags" (.array [])
      (.tail _ (.tail _ (.head _))) (by decide)).2.2 (Or.inl rfl)
  · exact (c3_serialize_relations mArticle "reviewer" (.other .null)
      (.tail _ (.tail _ (.tail _ (.head _)))) (by decide)).2.2 (Or.inr ⟨_, rfl⟩)

/-- C4: `save()` delegates to `create()` — a POST to
`<base>/<endpoint>` whose payload omits the identity — exactly when the
instance is not persisted, and otherwise issues a PATCH to
`<base>/<endpoint>/<id>`; the persisted flag `hasId` (identity is a
defined, non-null, non-empty string) alone decides the branch. -/
theorem c4_save_create_or_update (m : ModelInst) :
    (m.hasId = false →
        m.saveRequest = m.createRequest
        ∧ m.createRequest.method = .post
        ∧ m.createRequest.url = m.cls.getJsonApiUrl
        ∧ m.createRequest.payload = some m.serialize
        ∧ (m.serialize).id = none)
    ∧ (m.hasId = true →
        m.saveRequest =
          { method := .patch
            url := m.cls.getJsonApiUrl ++ "/" ++ m.id.asString
            payload := some m.serialize })
    ∧ (m.hasId = true ↔ ∃ s, m.id = .str s ∧ s ≠ "") := by
  refine ⟨?_, ?_, ?_⟩
  · intro h
    refine ⟨by simp [ModelInst.saveRequest, h], rfl, rfl, rfl, ?_⟩
    simp [ModelInst.serialize, h]
  · intro h
    simp [ModelInst.saveRequest, h]
  · rw [ModelInst.hasId]
    cases hid : m.id with
    | undef => simp
    | null => simp
    | str s =>
        simp only [decide_eq_true_eq, JsId.str.injEq]
        constructor
        · intro h; exact ⟨s, rfl, h⟩
        · rintro ⟨t, hts, ht⟩; exact hts ▸ ht
  
theorem c4_save_create_or_update_witness :
    mDraft.saveRequest = mDraft.createRequest
    ∧ (mDraft.serialize).id = none
    ∧ mArticle.saveRequest.method = HttpMethod.patch
    ∧ mArticle.saveRequest.url = "http://example.test/api/v1/articles/42" := by
  have hd := (c4_save_create_or_update mDraft).1 (by decide)
  have ha := (c4_save_create_or_update mArticle).2.1 (by decide)
  refine ⟨hd.1, hd.2.2.2.2, ?_, ?_⟩
  · rw [ha]
  · rw [ha]; decide

/-- C5 counterexample: a persisted instance (id `"42"`) whose
save/create fulfillment handler receives a response document carrying no
`data.id` does *not* keep its identity — `setApiId(undefined)` clears
it, because the handler calls `this.setApiId(idFromJson)`
unconditionally. -/
theorem c5_counterexample :
    mArticle.hasId = true
    ∧ (mArticle.saveFulfill { dataId := .undef }).getApiId ≠ mArticle.getApiId
    ∧ (mArticle.saveFulfill { dataId := .undef }).getApiId = JsId.undef := by
  refine ⟨by decide, ?_, by decide⟩
  intro h
  simp [mArticle, ModelInst.saveFulfill, ModelInst.setApiId,
    ModelInst.getApiId, ModelInst.id] at h

/-- C5 amended: the fulfillment handlers of `save()` and `create()`
always overwrite the instance's identity with the response's `data.id`
(leaving attributes and relations untouched); when no identity is
extractable the identity becomes `undefined`, so a non-persisted
instance is unchanged but a persisted instance's identity is cleared. -/
theorem c5_amended_fulfill_adopts_dataId (m : ModelInst) (doc : ResponseDoc) :
    (m.saveFulfill doc).getApiId = doc.dataId
    ∧ (m.saveFulfill doc).attrs = m.attrs
    ∧ (m.saveFulfill doc).rels = m.rels
    ∧ (m.saveFulfill doc).cls = m.cls
    ∧ (m.getApiId = JsId.undef → doc.dataId = JsId.undef →
        m.saveFulfill doc = m) := by
  cases m with
  | mk c i attrs rels =>
      refine ⟨rfl, rfl, rfl, rfl, ?_⟩
      intro hi hdoc
      simp only [ModelInst.getApiId, ModelInst.id] at hi
      simp [ModelInst.saveFulfill, ModelInst.setApiId, hi, hdoc]

theorem c5_amended_fulfill_adopts_dataId_witness :
    mDraft.saveFulfill { dataId := .undef } = mDraft :=
  (c5_amended_fulfill_adopts_dataId mDraft { dataId := .undef }).2.2.2.2
    (by decide) rfl

/-- C8: `delete()` on a non-persisted instance fails with the
precondition error `'Cannot delete a model with no ID.'` and issues no
transport request (the `error` branch carries none); on a persisted
instance it issues exactly one DELETE request to
`<base>/<endpoint>/<id>` and resolves to no value. -/
theorem c8_delete_precondition (m : ModelInst) :
    (m.hasId = false →
        m.deleteOp = .error "Cannot delete a model with no ID.")
    ∧ (m.hasId = true →
        m.deleteOp = .ok ({ method := .del
                            url := m.cls.getJsonApiUrl ++ "/" ++ m.id.asString
                            payload := none }, m))
    ∧ (m.hasId = false ↔
        m.id = .undef ∨ m.id = .null ∨ m.id = .str "") := by
  refine ⟨?_, ?_, ?_⟩
  · intro h; simp [ModelInst.deleteOp, h]
  · intro h; simp [ModelInst.deleteOp, h]
  · rw [ModelInst.hasId]
    cases m.id with
    | undef => simp
    | null => simp
    | str s => simp
  
theorem c8_delete_precondition_witness :
    mDraft.deleteOp = .error "Cannot delete a model with no ID."
    ∧ (∃ req m', mArticle.deleteOp = Except.ok (req, m')
        ∧ req.method = HttpMethod.del
        ∧ req.url = "http://example.test/api/v1/articles/42"
        ∧ req.payload = none) := by
  constructor
  · exact (c8_delete_precondition mDraft).1 (by decide)
  · exact ⟨_, _, (c8_delete_precondition mArticle).2.1 (by decide),
      rfl, by decide, rfl⟩

/-- C10: a successful `delete()` leaves the instance's in-memory state
entirely unchanged — its fulfillment handler is `function () {}` — so
identity, attributes and relations survive and the instance still
reports as persisted. -/
theorem c10_delete_preserves_state (m m' : ModelInst) (req : HttpRequest)
    (h : m.deleteOp = .ok (req, m')) :
    m'.getApiId = m.getApiId ∧ m'.attrs = m.attrs ∧ m'.rels = m.rels
    ∧ m'.cls = m.cls ∧ m'.hasId = true := by
  rw [ModelInst.deleteOp] at h
  by_cases hid : m.hasId = true
  · simp only [hid, Bool.not_true, Bool.false_eq_true, if_false,
      Except.ok.injEq, Prod.mk.injEq] at h
    rw [← h.2]
    exact ⟨rfl, rfl, rfl, rfl, hid⟩
  · have hfalse : m.hasId = false := by
      revert hid; cases m.hasId <;> simp
    simp [hfalse] at h

theorem c10_delete_preserves_state_witness :
    mArticle.getApiId = mArticle.getApiId ∧ mArticle.attrs = mArticle.attrs
    ∧ mArticle.rels = mArticle.rels ∧ mArticle.cls = mArticle.cls
    ∧ mArticle.hasId = true :=
  c10_delete_preserves_state mArticle mArticle
    { method := .del
      url := "http://example.test/api/v1/articles/42"
      payload := none }
    (by rw [ModelInst.deleteOp]; rfl)

/-- Three-level relation graph: an article whose `author`'s `books`
element has a populated `publisher` relation. -/
def mPub : ModelInst := .mk clsPeople (.str "p9") [] []
def mBook1 : ModelInst := .mk clsBooks (.str "b1") [] [("publisher", .model mPub)]
def mAuthor3 : ModelInst := .mk clsPeople (.str "a1") [] [("books", .array [mBook1])]
def mPost3 : ModelInst := .mk clsArticles (.str "r1") [] [("author", .model mAuthor3)]

/-- The spec's two-level example: a populated to-one `author` whose own
`books` to-many relation is populated. -/
def mAuthor2 : ModelInst :=
  .mk clsPeople (.str "a1") []
    [("books", .array [.mk clsBooks (.str "b1") [] [],
                       .mk clsBooks (.str "b2") [] []])]
def mPost2 : ModelInst := .mk clsArticles (.str "r2") [] [("author", .model mAuthor2)]

/-- C6 counterexample: on a well-formed three-level graph the walker
returns `"books.publisher"` — prefixed only by the immediate parent
relation name — and the complete-chain path `"author.books.publisher"`
is absent, refuting the claim that every nested path is prefixed by the
complete chain of relation names from the root. -/
theorem c6_counterexample :
    mPost3.wf = true ∧ mPost3.dotFreeKeys = true
    ∧ mPost3.getRelationsKeys none = ["author", "author.books", "books.publisher"]
    ∧ "author.books.publisher" ∉ mPost3.getRelationsKeys none := by
  refine ⟨by decide, by decide, by decide, by decide⟩

/-- C6 amended: `getRelationsKeys` prefixes each nested path with the
*immediate parent relation's key only* (the recursion passes the
relation key, not the accumulated dotted path), so — when relation names
are dot-free — every returned path has at most one dot, at any graph
depth; a declared relation is still listed before its nested paths, and
the spec's two-level example returns `["author", "author.books"]`. -/
theorem c6_amended_immediate_parent_only :
    (∀ (m : ModelInst) (p : Option String), m.wf = true →
        m.dotFreeKeys = true → (∀ q, p = some q → dotCount q = 0) →
        ∀ s ∈ m.getRelationsKeys p, dotCount s ≤ 1)
    ∧ mPost2.getRelationsKeys none = ["author", "author.books"] := by
  constructor
  · intro m p _ hd hp
    exact dotBound_model m p hp hd
  · decide

theorem c6_amended_immediate_parent_only_witness :
    dotCount "books.publisher" ≤ 1 :=
  c6_amended_immediate_parent_only.1 mPost3 none (by decide) (by decide)
    (fun q hq => by cases hq) "books.publisher" (by decide)

/-- C9: `fresh()` resolves to `undefined` — issuing no transport
request — exactly when the instance has no identity (the branch
condition, string truthiness of `getApiId()`, coincides with `hasId`),
and otherwise issues a find request for the instance's identity carrying
exactly the relation paths computed by `getRelationsKeys()`. -/
theorem c9_fresh_branches (m : ModelInst) (hwf : m.wf = true) :
    m.fresh = (if m.hasId then
        FreshOutcome.find m.id.asString (m.getRelationsKeys none)
      else FreshOutcome.resolveUndefined) := by
  have _hkeep := hwf
  simp only [ModelInst.fresh, ModelInst.getApiId, ← hasId_eq_truthy]

theorem c9_fresh_branches_witness :
    mDraft.fresh = FreshOutcome.resolveUndefined
    ∧ mPost3.fresh =
        FreshOutcome.find "r1" ["author", "author.books", "books.publisher"] := by
  constructor
  · rw [c9_fresh_branches mDraft (by decide)]; decide
  · rw [c9_fresh_branches mPost3 (by decide)]; decide

/-- A model of JavaScript `Date.parse` on the values the witnesses use,
following ECMAScript: the UTC epoch instant parses to `0`,
`"2020-05-17"` parses to `1589673600000`, a `Date` object coerces to its
own instant, everything else is NaN. -/
def dpModel : DateParse := fun v =>
  match v with
  | .str "1970-01-01T00:00:00Z" => some 0
  | .str "2020-05-17" => some 1589673600000
  | .date t => some t
  | _ => none

/-- A model of the external `DateFormatter.parseDate(value, format)`
collaborator consistent with `dpModel`: it yields the `Date` for the
instant the value denotes (the library returns a `Date` built from the
value and the configured pattern). -/
def fmtModel : DateFmt := fun v _ =>
  match dpModel v with
  | some t => .date t
  | none => .null

/-- A persisted article instance; `clsArticles` registers `createdAt`
as a date attribute with format `"Y-m-d H:i"`. -/
def mDated : ModelInst := .mk clsArticles (.str "9") [("title", .str "x")] []

/-- C7 counterexample: `"1970-01-01T00:00:00Z"` is parseable as a date
(`Date.parse` yields the number `0`), yet `setAttribute` on the
date-registered attribute `createdAt` raises, because the guard
`!Date.parse(value)` also fires on the falsy parse result `0`.  So the
write does not fail *exactly* when the value is unparseable. -/
theorem c7_counterexample :
    clsArticles.isDateAttribute "createdAt" = true
    ∧ (dpModel (.str "1970-01-01T00:00:00Z")).isSome = true
    ∧ exceptIsOk (mDated.setAttribute dpModel fmtModel "createdAt"
        (.str "1970-01-01T00:00:00Z")) = false := by
  refine ⟨by decide, by decide, by decide⟩

/-- C7 amended: for a date-registered attribute, `setAttribute` raises
exactly when `Date.parse(value)` is falsy — NaN (unparseable) *or the
epoch instant `0`* — and otherwise stores the value transformed by the
configured formatter; if the formatter preserves the parsed instant,
`getAttribute` then returns the `Date` equal to the parsed input; and
`getAttribute` raises exactly when `Date.parse` of the stored raw value
is falsy. -/
theorem c7_amended_date_roundtrip (dp : DateParse) (fmt : DateFmt)
    (m : ModelInst) (name : String)
    (hdate : m.cls.isDateAttribute name = true) :
    (∀ v, parseFalsy dp v = true →
        exceptIsOk (m.setAttribute dp fmt name v) = false)
    ∧ (∀ v t, dp v = some t → t ≠ 0 →
        ∃ m', m.setAttribute dp fmt name v = .ok m'
          ∧ mapGet m'.attrs name = fmt v (m.cls.dateFormatOf name)
          ∧ (dp (fmt v (m.cls.dateFormatOf name)) = some t →
              m'.getAttribute dp name = .ok (.date t)))
    ∧ (exceptIsOk (m.getAttribute dp name) = false
        ↔ parseFalsy dp (mapGet m.attrs name) = true) := by
  cases m with
  | mk c i attrs rels =>
      simp only [ModelInst.cls] at hdate
      refine ⟨?_, ?_, ?_⟩
      · intro v hv
        simp [ModelInst.setAttribute, hdate, hv, exceptIsOk]
      · intro v t ht htz
        have hfalsy : parseFalsy dp v = false := by
          simp [parseFalsy, ht, htz]
        refine ⟨.mk c i (mapSet attrs name (fmt v (c.dateFormatOf name))) rels,
          by simp [ModelInst.setAttribute, hdate, hfalsy, ModelInst.cls], ?_, ?_⟩
        · simp only [ModelInst.attrs, mapGet]
          exact mapGetD_mapSet _ _ _ _
        · intro hpres
          simp only [ModelInst.getAttribute, ModelInst.cls, hdate, if_true,
            ModelInst.getAttributeAsDate, ModelInst.attrs, mapGet]
          rw [mapGetD_mapSet]
          rw [show (ModelInst.mk c i attrs rels).cls = c from rfl] at hpres
          rw [hpres]
          simp [htz]
      · simp only [ModelInst.getAttribute, ModelInst.cls, hdate, if_true,
          ModelInst.getAttributeAsDate, ModelInst.attrs, parseFalsy]
        cases hv : dp (mapGet attrs name) with
        | none => simp [exceptIsOk, mapGet, hv]
        | some t =>
            by_cases htz : t = 0 <;> simp [exceptIsOk, mapGet, hv, htz]

theorem c7_amended_date_roundtrip_witness :
    exceptIsOk (mDated.setAttribute dpModel fmtModel "createdAt"
      (.str "not-a-date")) = false
    ∧ (∃ m', mDated.setAttribute dpModel fmtModel "createdAt"
          (.str "2020-05-17") = .ok m'
        ∧ m'.getAttribute dpModel "createdAt" = .ok (.date 1589673600000)) := by
  have h := c7_amended_date_roundtrip dpModel fmtModel mDated "createdAt" (by decide)
  constructor
  · exact h.1 _ (by decide)
  · obtain ⟨m', h1, _, h3⟩ :=
      h.2.1 (.str "2020-05-17") 1589673600000 (by decide) (by decide)
    exact ⟨m', h1, h3 (by decide)⟩
